import Mathlib

/-!
Verification development for the construction-claims copilot (`src/app.py`).

Strings are modelled as `List Char`.  Python-level operations used by the
program (`str.replace`, `str.strip`, `str.lower`, the `in` operator,
`json.loads`) are given executable models below; each model's doc comment
states its scope.  The generative-model collaborator is an opaque
`List Char → Except e (List Char)` function, and timestamps are modelled
at day granularity by integers.
-/

/-! ## Definitions -/

/-- Decidable prefix test on character lists (`pat` begins `s`). -/
def startsWithL : List Char → List Char → Bool
  | [], _ => true
  | _ :: _, [] => false
  | c :: p, d :: s => c = d && startsWithL p s

/-- Model of Python's `in` operator on strings: substring occurrence. -/
def hasSub (pat : List Char) : List Char → Bool
  | [] => pat.isEmpty
  | c :: t => startsWithL pat (c :: t) || hasSub pat t

/-- ASCII lower-casing of one character (scope of Python `str.lower`
needed here: the program only feeds ASCII token searches). -/
def lowerC (c : Char) : Char :=
  if 'A' ≤ c ∧ c ≤ 'Z' then Char.ofNat (c.toNat + 32) else c

/-- Model of Python `str.lower` (ASCII scope). -/
def pyLower (s : List Char) : List Char := s.map lowerC

/-- Digit character for `m < 10` (default `'9'` is never used in scope). -/
def digitChar10 (m : Nat) : Char :=
  match m with
  | 0 => '0' | 1 => '1' | 2 => '2' | 3 => '3' | 4 => '4'
  | 5 => '5' | 6 => '6' | 7 => '7' | 8 => '8' | _ => '9'

/-- Decimal digits of `n`, most significant first; fuel-structured so that
it computes by kernel reduction (`natToCharsGo f n` is correct once
`n ≤ f`). -/
def natToCharsGo : Nat → Nat → List Char
  | 0, n => [digitChar10 (n % 10)]
  | f + 1, n =>
    if n < 10 then [digitChar10 n]
    else natToCharsGo f (n / 10) ++ [digitChar10 (n % 10)]

/-- Decimal representation of a natural number. -/
def natToChars (n : Nat) : List Char := natToCharsGo n n

/-- Decimal representation of an integer (Python `str(int)` / JSON number). -/
def intToChars (n : Int) : List Char :=
  if n < 0 then '-' :: natToChars n.natAbs else natToChars n.natAbs

/-- A Python value as it may appear in the `time_limit` field of a clause
dictionary: the extraction stage parses JSON, so the field may be a string,
a number, a boolean or `None`. -/
inductive PyVal where
  | none
  | str (s : List Char)
  | int (n : Int)
  | bool (b : Bool)

/-- Model of Python `str()` on the values of `PyVal`. -/
def pyToString : PyVal → List Char
  | PyVal.none => "None".data
  | PyVal.str s => s
  | PyVal.int n => intToChars n
  | PyVal.bool true => "True".data
  | PyVal.bool false => "False".data

/-- The deadline heuristic of `create_calendar_file` (src/app.py lines
167-174): lower-case the `str()` of `time_limit`, then test tokens in
fixed priority order; default 7. -/
def deriveDays (time_limit : PyVal) : Nat :=
  let limit_text := pyLower (pyToString time_limit)
  if hasSub "10".data limit_text then 10
  else if hasSub "5".data limit_text then 5
  else if hasSub "3".data limit_text then 3
  else if hasSub "24".data limit_text then 1
  else if hasSub "immediately".data limit_text then 0
  else 7

/-- The plain fence marker `"```"` removed by `analyze_contract`. -/
def fence3 : List Char := ['`', '`', '`']

/-- The `"```json"` marker removed first by `analyze_contract`. -/
def fence7 : List Char := ['`', '`', '`', 'j', 's', 'o', 'n']

/-- Left-to-right scan replacing each non-overlapping occurrence of `pat`
with the empty string; fuel-structured so it computes by kernel reduction.
`replGo pat f s` is the scan, correct once `s.length < f`. -/
def replGo (pat : List Char) : Nat → List Char → List Char
  | 0, s => s
  | _ + 1, [] => []
  | f + 1, c :: r =>
    if startsWithL pat (c :: r) then replGo pat f ((c :: r).drop pat.length)
    else c :: replGo pat f r

/-- Model of Python `s.replace(pat, "")` for nonempty `pat` (the program
only removes the two fixed fence markers). -/
def pyReplace (pat s : List Char) : List Char :=
  if pat.isEmpty then s else replGo pat (s.length + 1) s

/-- Whitespace stripped by Python `str.strip()`. -/
def isWsPy (c : Char) : Bool :=
  c = ' ' || c = '\t' || c = '\n' || c = '\r' || c = '\x0b' || c = '\x0c'

/-- Model of Python `s.strip()`: drop whitespace from both ends. -/
def pyStrip (s : List Char) : List Char :=
  ((s.dropWhile isWsPy).reverse.dropWhile isWsPy).reverse

/-- The three shapes in which the model's response may carry the JSON body:
bare, wrapped in plain fences, or wrapped in ```json fences. -/
inductive Fence where
  | bare
  | plain
  | jsonF

/-- Wrap a body in the given markdown fence shape. -/
def applyFence : Fence → List Char → List Char
  | Fence.bare, s => s
  | Fence.plain, s => "```\n".data ++ (s ++ "\n```".data)
  | Fence.jsonF, s => "```json\n".data ++ (s ++ "\n```".data)

/-- Line 136 of src/app.py:
`response.text.replace("```json", "").replace("```", "").strip()`. -/
def cleanResponse (t : List Char) : List Char :=
  pyStrip (pyReplace fence3 (pyReplace fence7 t))

/-- JSON values as the extraction stage expects them.  Model scope: numbers
are integers and objects are ordered key-value lists (duplicate-key
collapsing of Python dicts is not modelled; the round-trip theorems assume
distinct keys). -/
inductive Json where
  | null
  | bool (b : Bool)
  | num (n : Int)
  | str (s : List Char)
  | arr (xs : List Json)
  | obj (kvs : List (List Char × Json))

/-- JSON string-body escaping used by the canonical renderer. -/
def escapeChars : List Char → List Char
  | [] => []
  | c :: t =>
    if c = '"' then '\\' :: '"' :: escapeChars t
    else if c = '\\' then '\\' :: '\\' :: escapeChars t
    else c :: escapeChars t

mutual

/-- Canonical compact text of a JSON value (the denotation used to state
the extraction round-trip: a response "whose body is the JSON object `j`"
is a response whose text is `renderJ j`). -/
def renderJ : Json → List Char
  | Json.null => "null".data
  | Json.bool true => "true".data
  | Json.bool false => "false".data
  | Json.num n => intToChars n
  | Json.str s => '"' :: (escapeChars s ++ ['"'])
  | Json.arr xs => '[' :: (renderElems xs ++ [']'])
  | Json.obj kvs => '\x7b' :: (renderMembers kvs ++ ['\x7d'])

/-- Comma-separated renderings of array elements. -/
def renderElems : List Json → List Char
  | [] => []
  | [x] => renderJ x
  | x :: y :: t => renderJ x ++ (',' :: renderElems (y :: t))

/-- Comma-separated renderings of object members. -/
def renderMembers : List (List Char × Json) → List Char
  | [] => []
  | [(k, v)] => '"' :: (escapeChars k ++ ('"' :: ':' :: renderJ v))
  | (k, v) :: m :: t =>
    ('"' :: (escapeChars k ++ ('"' :: ':' :: renderJ v))) ++ (',' :: renderMembers (m :: t))

end

/-- Strings whose characters need no `\uXXXX` escape (no control chars). -/
def strOkB (s : List Char) : Bool := s.all (fun c => 32 ≤ c.toNat)

/-- `k` is not a key of the member list. -/
def keyFree (k : List Char) : List (List Char × Json) → Bool
  | [] => true
  | (k', _) :: t => if k = k' then false else keyFree k t

mutual

/-- Values in the model's scope: strings control-char free, object keys
distinct (so Python's dict semantics and the ordered-pair model agree). -/
def validJ : Json → Bool
  | Json.null => true
  | Json.bool _ => true
  | Json.num _ => true
  | Json.str s => strOkB s
  | Json.arr xs => validElems xs
  | Json.obj kvs => validMembers kvs

/-- All elements valid. -/
def validElems : List Json → Bool
  | [] => true
  | x :: t => validJ x && validElems t

/-- All members valid with pairwise-distinct keys. -/
def validMembers : List (List Char × Json) → Bool
  | [] => true
  | (k, v) :: t => strOkB k && validJ v && keyFree k t && validMembers t

end

/-- ASCII digit test. -/
def isDig (c : Char) : Bool := '0' ≤ c && c ≤ '9'

/-- Value of a digit run. -/
def digitsVal (l : List Char) : Nat := l.foldl (fun a c => 10 * a + (c.toNat - 48)) 0

/-- JSON forbids a leading zero before further digits. -/
def badLead : List Char → Bool
  | c :: _ :: _ => c = '0'
  | _ => false

/-- Parse a nonempty digit run (JSON numbers restricted to integers). -/
def parseNum (s : List Char) : Option (Nat × List Char) :=
  if (s.takeWhile isDig).isEmpty then none
  else if badLead (s.takeWhile isDig) then none
  else some (digitsVal (s.takeWhile isDig), s.dropWhile isDig)

/-- JSON string escapes handled by the model (no `\uXXXX`). -/
def unescapeC (e : Char) : Option Char :=
  if e = '"' then some '"'
  else if e = '\\' then some '\\'
  else if e = '/' then some '/'
  else if e = 'n' then some '\n'
  else if e = 't' then some '\t'
  else if e = 'r' then some '\r'
  else if e = 'b' then some '\x08'
  else if e = 'f' then some '\x0c'
  else none

/-- Parse a JSON string body after the opening quote; raw control
characters are rejected (Python strict mode). -/
def parseStrAux : List Char → Option (List Char × List Char)
  | [] => none
  | c :: r =>
    if c = '"' then some ([], r)
    else if c = '\\' then
      match r with
      | [] => none
      | e :: r2 =>
        match unescapeC e with
        | none => none
        | some d =>
          match parseStrAux r2 with
          | none => none
          | some (s, r3) => some (d :: s, r3)
    else if c.toNat < 32 then none
    else
      match parseStrAux r with
      | none => none
      | some (s, r3) => some (c :: s, r3)

mutual

/-- Recursive-descent JSON value parser (fuel-structured; model of
`json.loads` on compact texts — the program strips surrounding whitespace
before parsing, and the renderer emits none). -/
def parseVal : Nat → List Char → Option (Json × List Char)
  | 0, _ => none
  | f + 1, s =>
    match s with
    | [] => none
    | c :: r =>
      if c = '\x7b' then
        match parsePairs f r with
        | none => none
        | some (kvs, r2) => some (Json.obj kvs, r2)
      else if c = '[' then
        match parseElems f r with
        | none => none
        | some (xs, r2) => some (Json.arr xs, r2)
      else if c = '"' then
        match parseStrAux r with
        | none => none
        | some (k, r2) => some (Json.str k, r2)
      else if c = '-' then
        match parseNum r with
        | none => none
        | some (d, r2) => some (Json.num (-(d : Int)), r2)
      else if isDig c then
        match parseNum (c :: r) with
        | none => none
        | some (d, r2) => some (Json.num (d : Int), r2)
      else if startsWithL "null".data (c :: r) then some (Json.null, (c :: r).drop 4)
      else if startsWithL "true".data (c :: r) then some (Json.bool true, (c :: r).drop 4)
      else if startsWithL "false".data (c :: r) then some (Json.bool false, (c :: r).drop 5)
      else none
  termination_by structural f => f

/-- Parse array elements up to the closing bracket. -/
def parseElems : Nat → List Char → Option (List Json × List Char)
  | 0, _ => none
  | f + 1, s =>
    match s with
    | [] => none
    | c :: r =>
      if c = ']' then some ([], r)
      else
        match parseVal f (c :: r) with
        | none => none
        | some (x, rr) =>
          match rr with
          | [] => none
          | d :: r2 =>
            if d = ',' then
              match r2 with
              | [] => none
              | e :: r3 =>
                if e = ']' then none
                else
                  match parseElems f (e :: r3) with
                  | none => none
                  | some (xs, r4) => some (x :: xs, r4)
            else if d = ']' then some ([x], r2)
            else none
  termination_by structural f => f

/-- Parse object members up to the closing brace. -/
def parsePairs : Nat → List Char → Option (List (List Char × Json) × List Char)
  | 0, _ => none
  | f + 1, s =>
    match s with
    | [] => none
    | c :: r =>
      if c = '\x7d' then some ([], r)
      else if c = '"' then
        match parseStrAux r with
        | none => none
        | some (k, r2) =>
          match r2 with
          | [] => none
          | d :: r3 =>
            if d = ':' then
              match parseVal f r3 with
              | none => none
              | some (v, r4) =>
                match r4 with
                | [] => none
                | e :: r5 =>
                  if e = ',' then
                    match r5 with
                    | [] => none
                    | x :: r6 =>
                      if x = '"' then
                        match parsePairs f (x :: r6) with
                        | none => none
                        | some (ps, r7) => some ((k, v) :: ps, r7)
                      else none
                  else if e = '\x7d' then some ([(k, v)], r5)
                  else none
            else none
      else none
  termination_by structural f => f

end

/-- Model of `json.loads`: skip surrounding whitespace, parse one value,
require end of input.  The fuel `2 * length + 2` covers every input: each
two units of fuel consume at least one character. -/
def json_loads (s : List Char) : Option Json :=
  match parseVal (2 * (s.dropWhile isWsPy).length + 2) (s.dropWhile isWsPy) with
  | some (j, r) => if r.dropWhile isWsPy = [] then some j else none
  | none => none

/-- The continuation after a rendered number never starts with a digit, so
`takeWhile` stops exactly at the number's end. -/
def restOk (rest : List Char) : Prop := ∀ c, rest.head? = some c → isDig c = false

/-- The empty-but-valid structure returned on any extraction failure
(line 140): `{"metadata": {}, "clauses": []}`. -/
def emptyResult : Json :=
  Json.obj [("metadata".data, Json.obj []), ("clauses".data, Json.arr [])]

/-- Model of `analyze_contract` from the model response onward.  The
remote call is an `Except`: `error` when `generate_content` (or reading
`response.text`) raises.  Output pairs the returned structure with a flag
recording whether `st.error` was shown.  On success the response text is
fence-stripped (line 136) and parsed (line 137); any failure yields the
empty-but-valid structure and the error flag (lines 138-140). -/
def analyze_contract (resp : Except (List Char) (List Char)) : Json × Bool :=
  match resp with
  | Except.error _ => (emptyResult, true)
  | Except.ok t =>
    match json_loads (cleanResponse t) with
    | some j => (j, false)
    | none => (emptyResult, true)

/-- A clause dictionary as used by `create_calendar_file`: the four fields
the function reads.  `time_limit` is a `PyVal` because the code applies
`str()` to it (line 168). -/
structure ClauseV where
  clause_id : List Char
  topic : List Char
  trigger_event : List Char
  time_limit : PyVal

/-- The `ics` `DisplayAlarm`: its trigger is a signed day offset relative
to the event start (line 194 uses `timedelta(days=-1)`). -/
structure DisplayAlarm where
  trigger : Int

/-- An `ics` `Event` as populated by the code: name, start (in days,
relative to the same clock as `now`), description, alarms. -/
structure Event where
  name : List Char
  beginT : Int
  description : List Char
  alarms : List DisplayAlarm

/-- The multi-line description built on lines 181-191 (f-string, with its
literal indentation). -/
def eventDescription (item : ClauseV) : List Char :=
  "\n        PROJECT NOTICE DEADLINE\n        -----------------------\n        Topic: ".data
    ++ item.topic
    ++ "\n        Clause: ".data ++ item.clause_id
    ++ "\n        Trigger: ".data ++ item.trigger_event
    ++ "\n        Exact Rule: ".data ++ pyToString item.time_limit
    ++ "\n        \n        ACTION REQUIRED:\n        Draft and submit notice immediately to preserve claim entitlement.\n        ".data

/-- One loop iteration of `create_calendar_file` (lines 161-196): build the
event for a clause.  `now` is the day-granularity timestamp taken at
generation time (`datetime.now()`). -/
def mkEvent (now : Int) (item : ClauseV) : Event :=
  { name := "⚠️ NOTICE DUE: ".data ++ item.topic ++ " (".data ++ item.clause_id ++ ")".data
  , beginT := now + (deriveDays item.time_limit : Int)
  , description := eventDescription item
  , alarms := [⟨-1⟩] }

/-- Modelled from the spec: the `ics` library's `Calendar` container and
`serialize()` are not part of src/; per spec §4.3 ("Must preserve clause
input order in event order") the serialized payload is modelled as the
sequence of events in the order they were added. -/
def calendar_serialize (events : List Event) : List Event := events

/-- `create_calendar_file` (lines 159-197): one event per clause, in
clause order, serialized. -/
def create_calendar_file (now : Int) (clauses : List ClauseV) : List Event :=
  calendar_serialize (clauses.map (mkEvent now))

/-- User-supplied facts for one drafting session. -/
structure NoticeInputs where
  date : List Char
  cause : List Char
  effect : List Char

/-- Recipient information confirmed in the drafting form. -/
structure RecipientInfo where
  owner : List Char
  recipient : List Char
  project : List Char
  contract_num : List Char

/-- The fixed literal segments of `DRAFTER_PROMPT` (lines 90-116), in
order, between the substituted fields. -/
def dpSeg0 : List Char :=
  "\nROLE: Expert Construction Claims Consultant (Canada).\nOBJECTIVE: Draft a formal contractual notice.\nINPUT DATA:\n- Date: ".data

/-- Segment before the owner field. -/
def dpSeg1 : List Char := "\n- Owner: ".data

/-- Segment before the recipient field. -/
def dpSeg2 : List Char := "\n- Attention: ".data

/-- Segment before the project field. -/
def dpSeg3 : List Char := "\n- Project: ".data

/-- Segment before the contract number field. -/
def dpSeg4 : List Char := "\n- Contract #: ".data

/-- Segment before the clause id field. -/
def dpSeg5 : List Char := "\n- Clause: ".data

/-- Segment before the cause field. -/
def dpSeg6 : List Char := "\n- User Cause: ".data

/-- Segment before the effect field. -/
def dpSeg7 : List Char := "\n- User Effect: ".data

/-- The RULES block up to the Header field. -/
def dpSeg8 : List Char :=
  "\n\nRULES:\n1. TONE: Professional, firm, but collaborative. Avoid overly litigious language. Use \"Please be advised...\"\n2. FORMAT: Standard Business Letter.\n3. STRUCTURE:\n   - Header: ".data

/-- Segment before the To field. -/
def dpSeg9 : List Char := "\n   - To: ".data

/-- Segment before the Attention line. -/
def dpSeg10 : List Char := "\n   - Attention: ".data

/-- Segment before the topic in the Re line. -/
def dpSeg11 : List Char := "\n   - Re: Notice of ".data

/-- Separator between topic and project in the Re line. -/
def dpSeg12 : List Char := " - ".data

/-- Separator between project and contract number in the Re line. -/
def dpSeg13 : List Char := " (".data

/-- Segment from the Re line to the Opening date. -/
def dpSeg14 : List Char := ")\n   - Opening: State clearly that on ".data

/-- Segment from the Opening to the Contractual Reference clause id. -/
def dpSeg15 : List Char :=
  ", an issue was identified.\n   - Body Paragraph 1 (The Facts): Describe what happened versus what was in the contract.\n   - Body Paragraph 2 (The Impact): Use bullet points for Schedule/Cost impacts.\n   - Contractual Reference: Cite ".data

/-- The closing segment. -/
def dpSeg16 : List Char :=
  " as the basis for the notice.\n   - Closing: \"We request your direction...\" and mention that detailed costs are being tracked.\n".data

/-- `DRAFTER_PROMPT.format(...)` (lines 90-116 and 144-154): the fixed
template with every field substituted verbatim at each occurrence. -/
def drafter_prompt (clause : ClauseV) (inputs : NoticeInputs) (meta : RecipientInfo) :
    List Char :=
  dpSeg0 ++ (inputs.date ++ (dpSeg1 ++ (meta.owner ++ (dpSeg2 ++ (meta.recipient ++
    (dpSeg3 ++ (meta.project ++ (dpSeg4 ++ (meta.contract_num ++ (dpSeg5 ++
    (clause.clause_id ++ (dpSeg6 ++ (inputs.cause ++ (dpSeg7 ++ (inputs.effect ++
    (dpSeg8 ++ (inputs.date ++ (dpSeg9 ++ (meta.owner ++ (dpSeg10 ++
    (meta.recipient ++ (dpSeg11 ++ (clause.topic ++ (dpSeg12 ++ (meta.project ++
    (dpSeg13 ++ (meta.contract_num ++ (dpSeg14 ++ (inputs.date ++ (dpSeg15 ++
    (clause.clause_id ++ dpSeg16)))))))))))))))))))))))))))))))

/-- `generate_notice_draft` (lines 142-156): render the template once,
invoke the generative model once with it, return the response unmodified.
The opaque collaborator `gm` models `GenerativeModel.generate_content`
followed by `.text`; an exception is `Except.error`, and the function
installs no handler, so an error passes through to the caller. -/
def generate_notice_draft (gm : List Char → Except (List Char) (List Char))
    (clause : ClauseV) (inputs : NoticeInputs) (meta : RecipientInfo) :
    Except (List Char) (List Char) :=
  gm (drafter_prompt clause inputs meta)

/-- The page loop of lines 123-125: `for i, page in enumerate(pages): if
i > 50: break; text += page.extract_text() + "\n"`.  Pages are given as
their already-extracted texts (the per-page extraction is the pypdf
collaborator). -/
def extractLoop : Nat → List (List Char) → List Char
  | _, [] => []
  | i, p :: rest => if i > 50 then [] else (p ++ ['\n']) ++ extractLoop (i + 1) rest

/-- `extract_text_from_pdf` on the success path (no read error). -/
def extract_text_from_pdf (pages : List (List Char)) : List Char :=
  extractLoop 0 pages

/-- A sample clause with a 24-hour time limit. -/
def sampleClause24 : ClauseV :=
  ⟨"GC 6.5.1".data, "Delays".data, "Delay by Owner".data,
    PyVal.str "24 hours".data⟩

/-- The JSON object used to exhibit the fence-stripping anomaly: one of
its string values contains the fence substring. -/
def j0 : Json := Json.obj [("x".data, Json.str "a```b".data)]

/-- The text of `j0` (a well-formed JSON object, no fence wrapper). -/
def resp9 : List Char := "\x7b\"x\":\"a```b\"\x7d".data

/-- What the pipeline actually returns for `resp9`. -/
def jBad : Json := Json.obj [("x".data, Json.str "ab".data)]

/-- The sample object for the C4 witness. -/
def kvs0 : List (List Char × Json) :=
  [("metadata".data, Json.obj [("owner_name".data, Json.str "Owner Co".data)]),
   ("clauses".data, Json.arr [Json.str "GC 6.5.1".data, Json.num (-3), Json.bool true,
     Json.null])]

/-- C5: when the model call fails or the response body fails to parse as
JSON, `analyze_contract` does not raise: it returns the empty-but-valid
structure `{"metadata": {}, "clauses": []}` and signals the error. -/
theorem claim_C5 :
    (∀ e, analyze_contract (Except.error e) = (emptyResult, true)) ∧
    (∀ t, json_loads (cleanResponse t) = none →
      analyze_contract (Except.ok t) = (emptyResult, true)) := by
  constructor
  · intro e
    rfl
  · intro t h
    unfold analyze_contract
    show (match json_loads (cleanResponse t) with
      | some j => (j, false)
      | none => (emptyResult, true)) = (emptyResult, true)
    rw [h]

/-! ## Theorems -/

example : deriveDays (PyVal.str "10 Working Days".data) = 10 := by decide

example : deriveDays (PyVal.str "Immediately".data) = 0 := by decide

example : deriveDays (PyVal.str "Without Delay".data) = 7 := by decide

example : deriveDays (PyVal.str "within 35 days".data) = 5 := by decide

example : deriveDays PyVal.none = 7 := by decide

example : deriveDays (PyVal.int 10) = 10 := by decide

theorem startsWithL_iff (p : List Char) : ∀ s, startsWithL p s = true ↔ p <+: s := by
  induction p with
  | nil => intro s; simp [startsWithL, List.nil_prefix]
  | cons c p ih =>
    intro s
    cases s with
    | nil => simp [startsWithL, List.prefix_nil]
    | cons d t => simp [startsWithL, List.cons_prefix_cons, ih]

theorem hasSub_iff (p : List Char) : ∀ s, hasSub p s = true ↔ p <:+: s := by
  intro s
  induction s with
  | nil => simp [hasSub, List.infix_nil, List.isEmpty_iff]
  | cons c t ih => simp [hasSub, List.infix_cons_iff, startsWithL_iff, ih]

theorem noSub_of_false {p s : List Char} (h : hasSub p s = false) : ¬ (p <:+: s) := by
  intro hin
  rw [← hasSub_iff] at hin
  simp [h] at hin

theorem subCons {p l : List Char} {c : Char} (h : p <:+: (c :: l))
    (hne : ∀ x ∈ p, x ≠ c) : p = [] ∨ p <:+: l := by
  obtain ⟨u, v, huv⟩ := h
  cases u with
  | nil =>
    cases p with
    | nil => exact Or.inl rfl
    | cons x p' =>
      simp only [List.nil_append, List.cons_append, List.cons.injEq] at huv
      exact absurd huv.1 (hne x (by simp))
  | cons d u' =>
    simp only [List.cons_append, List.cons.injEq] at huv
    exact Or.inr ⟨u', v, huv.2⟩

theorem subConcat {p l : List Char} {c : Char} (h : p <:+: (l ++ [c]))
    (hne : ∀ x ∈ p, x ≠ c) : p = [] ∨ p <:+: l := by
  have h' : p.reverse <:+: (c :: l.reverse) := by
    have := List.reverse_infix.mpr h
    simpa using this
  have hne' : ∀ x ∈ p.reverse, x ≠ c := fun x hx => hne x (List.mem_reverse.mp hx)
  rcases subCons h' hne' with h0 | h1
  · left
    simpa using congrArg List.reverse h0
  · right
    have := List.reverse_infix.mpr h1
    simpa using this

theorem takeOfPre {p s : List Char} (h : p <+: s) : p = s.take p.length := by
  obtain ⟨u, hu⟩ := h
  rw [← hu, List.take_left]

theorem preSplitLe {p t s : List Char} (hp : p <+: t ++ s)
    (hl : p.length ≤ t.length) : p <+: t := by
  have hq := takeOfPre hp
  rw [List.take_append_eq_append_take] at hq
  have h0 : p.length - t.length = 0 := Nat.sub_eq_zero_of_le hl
  rw [h0] at hq
  simp only [List.take_zero, List.append_nil] at hq
  rw [hq]
  exact List.take_prefix _ _

theorem preSplitGt {p t s : List Char} (hp : p <+: t ++ s)
    (hl : t.length ≤ p.length) : t <+: p := by
  rcases List.prefix_or_prefix_of_prefix hp (List.prefix_append t s) with h | h
  · have : p = t := h.eq_of_length (Nat.le_antisymm h.length_le hl)
    rw [this]
  · exact h

theorem lastOfSuf {t a : List Char} (h : t <:+ a) (hne : t ≠ []) :
    a.getLast? = t.getLast? := by
  obtain ⟨u, hu⟩ := h
  obtain ⟨v, hv⟩ := Option.isSome_iff_exists.mp (List.getLast?_isSome.mpr hne)
  rw [← hu, List.getLast?_append, hv]
  rfl

theorem sufSplit {x y t : List Char} (h : t <:+ x ++ y) :
    t <:+ y ∨ ∃ x', x' <:+ x ∧ x' ≠ [] ∧ t = x' ++ y := by
  induction x with
  | nil => exact Or.inl (by simpa using h)
  | cons c x' ih =>
    rw [List.cons_append, List.suffix_cons_iff] at h
    rcases h with h | h
    · exact Or.inr ⟨c :: x', List.suffix_refl _, by simp, by simpa using h⟩
    · rcases ih h with h1 | ⟨x'', hs, hn, he⟩
      · exact Or.inl h1
      · exact Or.inr ⟨x'', hs.trans (List.suffix_cons c x'), hn, he⟩

theorem sufOfFence3 {x : List Char} (h : x <:+ fence3) (hne : x ≠ []) :
    x = ['`'] ∨ x = ['`', '`'] ∨ x = ['`', '`', '`'] := by
  obtain ⟨u, hu⟩ := h
  rcases u with _ | ⟨a, _ | ⟨b, _ | ⟨c, _ | ⟨d, u'⟩⟩⟩⟩
  · right; right; simpa [fence3] using hu
  · right; left
    simp only [fence3, List.cons_append, String.data] at hu
    simp at hu
    simp [hu.2]
  · left
    simp only [fence3, List.cons_append] at hu
    simp at hu
    simp [hu.2.2]
  · exfalso
    simp only [fence3, List.cons_append] at hu
    simp at hu
    exact hne hu.2.2.2
  · exfalso
    simp only [fence3, List.cons_append] at hu
    simp at hu

theorem spanFree {pat : List Char} (a s : List Char)
    (h3 : fence3 <+: pat)
    (hA : ¬ (fence3 <:+: a))
    (hLast : a.getLast? = some '\n')
    (hTake : ∀ k, 0 < k → k < pat.length → (pat.take k).getLast? ≠ some '\n') :
    ∀ t, t <:+ a → t ≠ [] → ¬ pat <+: (t ++ s) := by
  intro t ht htne hp
  rcases Nat.lt_or_ge t.length pat.length with hlt | hge
  · have htp : t <+: pat := preSplitGt hp (Nat.le_of_lt hlt)
    have h1 : t = pat.take t.length := takeOfPre htp
    have h2 : a.getLast? = t.getLast? := lastOfSuf ht htne
    have h3' := hTake t.length (List.length_pos.mpr htne) hlt
    rw [← h1] at h3'
    rw [hLast] at h2
    exact h3' h2.symm
  · exact hA (h3.isInfix.trans ((preSplitLe hp hge).isInfix.trans ht.isInfix))

theorem replGo_congr {pat : List Char} (hp : pat ≠ []) :
    ∀ f g s, s.length < f → s.length < g → replGo pat f s = replGo pat g s := by
  intro f
  induction f with
  | zero => intro g s hf; exact absurd hf (Nat.not_lt_zero _)
  | succ f ih =>
    intro g s hf hg
    cases g with
    | zero => exact absurd hg (Nat.not_lt_zero _)
    | succ g =>
      cases s with
      | nil => rfl
      | cons c r =>
        have hplen : 0 < pat.length := List.length_pos.mpr hp
        have hlen : (c :: r).length = r.length + 1 := rfl
        by_cases hsw : startsWithL pat (c :: r) = true
        · simp only [replGo, hsw, if_pos]
          apply ih
          · rw [List.length_drop]
            simp only [hlen] at hf ⊢
            omega
          · rw [List.length_drop]
            simp only [hlen] at hg ⊢
            omega
        · simp only [replGo, hsw]
          simp only [Bool.false_eq_true, if_false, List.cons.injEq, true_and]
          apply ih
          · simp only [hlen] at hf; omega
          · simp only [hlen] at hg; omega

theorem pyReplace_nil (pat : List Char) : pyReplace pat [] = [] := by
  unfold pyReplace
  split
  · rfl
  · rfl

theorem isEmpty_false_of_ne {pat : List Char} (hp : pat ≠ []) : pat.isEmpty = false := by
  cases pat with
  | nil => exact absurd rfl hp
  | cons a t => rfl

theorem replGo_eq_pyReplace {pat : List Char} (hp : pat ≠ []) (f : Nat) (s : List Char)
    (h : s.length < f) : replGo pat f s = pyReplace pat s := by
  rw [pyReplace, isEmpty_false_of_ne hp]
  simp only [Bool.false_eq_true, if_false]
  exact replGo_congr hp f (s.length + 1) s h (Nat.lt_succ_self _)

theorem pyReplace_cons (pat : List Char) (hp : pat ≠ []) (c : Char) (r : List Char) :
    pyReplace pat (c :: r) =
      if startsWithL pat (c :: r) then pyReplace pat ((c :: r).drop pat.length)
      else c :: pyReplace pat r := by
  have hplen : 0 < pat.length := List.length_pos.mpr hp
  rw [← replGo_eq_pyReplace hp ((c :: r).length + 1) (c :: r) (Nat.lt_succ_self _)]
  show replGo pat (r.length + 1 + 1) (c :: r) = _
  by_cases hsw : startsWithL pat (c :: r) = true
  · simp only [replGo, hsw, if_pos]
    rw [replGo_eq_pyReplace hp]
    rw [List.length_drop]
    simp only [List.length_cons]
    omega
  · simp only [replGo, hsw, Bool.false_eq_true, if_false, List.cons.injEq, true_and]
    rw [replGo_eq_pyReplace hp]
    omega

theorem replNoOcc {pat : List Char} (hp : pat ≠ []) :
    ∀ {s : List Char}, ¬ (pat <:+: s) → pyReplace pat s = s := by
  intro s
  induction s with
  | nil => intro _; exact pyReplace_nil pat
  | cons c r ih =>
    intro h
    rw [pyReplace_cons pat hp c r]
    have hsw : startsWithL pat (c :: r) = false := by
      by_contra hne
      have : startsWithL pat (c :: r) = true := by
        cases hx : startsWithL pat (c :: r)
        · exact absurd hx hne
        · rfl
      exact h ((startsWithL_iff pat (c :: r)).mp this).isInfix
    rw [hsw]
    simp only [Bool.false_eq_true, if_false, List.cons.injEq, true_and]
    exact ih (fun hin => h (List.infix_cons hin))

theorem replHeadMatch {pat : List Char} (hp : pat ≠ []) (s : List Char) :
    pyReplace pat (pat ++ s) = pyReplace pat s := by
  cases pat with
  | nil => exact absurd rfl hp
  | cons p0 pt =>
    rw [List.cons_append, pyReplace_cons _ hp]
    have hsw : startsWithL (p0 :: pt) (p0 :: (pt ++ s)) = true :=
      (startsWithL_iff _ _).mpr (by rw [← List.cons_append]; exact List.prefix_append _ _)
    rw [hsw]
    simp only [if_pos]
    rw [← List.cons_append, List.drop_left]

theorem replSkipAppend {pat : List Char} (hp : pat ≠ []) {a s : List Char}
    (H : ∀ t, t <:+ a → t ≠ [] → ¬ pat <+: (t ++ s)) :
    pyReplace pat (a ++ s) = a ++ pyReplace pat s := by
  induction a with
  | nil => simp
  | cons c a' ih =>
    rw [List.cons_append, pyReplace_cons _ hp]
    have hsw : startsWithL pat (c :: (a' ++ s)) = false := by
      by_contra hne
      have hT : startsWithL pat (c :: (a' ++ s)) = true := by
        cases hx : startsWithL pat (c :: (a' ++ s))
        · exact absurd hx hne
        · rfl
      have := (startsWithL_iff _ _).mp hT
      rw [← List.cons_append] at this
      exact H (c :: a') (List.suffix_refl _) (by simp) this
    rw [hsw]
    simp only [Bool.false_eq_true, if_false, List.cons_append, List.cons.injEq, true_and]
    exact ih (fun t ht htne => H t (ht.trans (List.suffix_cons c a')) htne)

theorem dropWhile_cons_false {p : Char → Bool} {a : Char} {l : List Char}
    (h : p a = false) : (a :: l).dropWhile p = a :: l := by
  simp [List.dropWhile_cons, h]

theorem dropWhile_cons_true {p : Char → Bool} {a : Char} {l : List Char}
    (h : p a = true) : (a :: l).dropWhile p = l.dropWhile p := by
  simp [List.dropWhile_cons, h]

theorem pyStrip_of_ends {s m m' : List Char}
    (h1 : s = '\x7b' :: m) (h2 : s = m' ++ ['\x7d']) : pyStrip s = s := by
  have e1 : s.dropWhile isWsPy = s := by
    rw [h1]
    exact dropWhile_cons_false (by decide)
  have e3 : s.reverse = '\x7d' :: m'.reverse := by rw [h2]; simp
  unfold pyStrip
  rw [e1, e3, dropWhile_cons_false (by decide), ← e3, List.reverse_reverse]

theorem pyStrip_wrap {b m m' : List Char}
    (h1 : b = '\x7b' :: m) (h2 : b = m' ++ ['\x7d']) :
    pyStrip ('\n' :: (b ++ ['\n'])) = b := by
  have e1 : ('\n' :: (b ++ ['\n'])).dropWhile isWsPy = b ++ ['\n'] := by
    rw [dropWhile_cons_true (by decide), h1, List.cons_append]
    exact dropWhile_cons_false (by decide)
  have e2 : (b ++ ['\n']).reverse = '\n' :: b.reverse := by simp
  have e3 : b.reverse = '\x7d' :: m'.reverse := by rw [h2]; simp
  unfold pyStrip
  rw [e1, e2, dropWhile_cons_true (by decide), e3,
    dropWhile_cons_false (by decide), ← e3, List.reverse_reverse]

theorem f3ne : fence3 ≠ [] := by decide

theorem f7ne : fence7 ≠ [] := by decide

theorem f3pre7 : fence3 <+: fence7 := ⟨"json".data, by decide⟩

theorem noF7inF3 : ¬ (fence7 <:+: fence3) := noSub_of_false (by decide)

theorem hTake3 : ∀ k, 0 < k → k < fence3.length → (fence3.take k).getLast? ≠ some '\n' := by
  intro k h1 h2
  have h3 : k < 3 := by simpa [fence3] using h2
  interval_cases k <;> decide

theorem hTake7 : ∀ k, 0 < k → k < fence7.length → (fence7.take k).getLast? ≠ some '\n' := by
  intro k h1 h2
  have h3 : k < 7 := by simpa [fence7] using h2
  interval_cases k <;> decide

theorem wrapNoTriple {b : List Char} (hb : ¬ (fence3 <:+: b)) :
    ¬ (fence3 <:+: ('\n' :: (b ++ ['\n']))) := by
  intro h
  have hchars : ∀ x ∈ fence3, x ≠ '\n' := by decide
  rcases subCons h hchars with h0 | h1
  · simp [fence3] at h0
  · rcases subConcat h1 hchars with h0 | h2
    · simp [fence3] at h0
    · exact hb h2

theorem wrapLast (b : List Char) : ('\n' :: (b ++ ['\n'])).getLast? = some '\n' := by
  have : '\n' :: (b ++ ['\n']) = ('\n' :: b) ++ ['\n'] := by simp
  rw [this]
  exact List.getLast?_concat _

theorem replF7NoOcc {b : List Char} (hb : ¬ (fence3 <:+: b)) :
    pyReplace fence7 b = b :=
  replNoOcc f7ne (fun h => hb (f3pre7.isInfix.trans h))

theorem replF7f3 : pyReplace fence7 fence3 = fence3 := replNoOcc f7ne noF7inF3

theorem replF3self : pyReplace fence3 fence3 = [] := by decide

theorem replF3Wrap {b : List Char} (hb : ¬ (fence3 <:+: b)) :
    pyReplace fence3 (('\n' :: (b ++ ['\n'])) ++ fence3) = '\n' :: (b ++ ['\n']) := by
  rw [replSkipAppend f3ne
    (spanFree _ _ (List.prefix_refl _) (wrapNoTriple hb) (wrapLast b) hTake3)]
  rw [replF3self, List.append_nil]

theorem applyJsonF_shape (b : List Char) :
    applyFence Fence.jsonF b = fence7 ++ (('\n' :: (b ++ ['\n'])) ++ fence3) := by
  show "```json\n".data ++ (b ++ "\n```".data) = _
  have e1 : "```json\n".data = fence7 ++ ['\n'] := by decide
  have e2 : "\n```".data = '\n' :: fence3 := by decide
  rw [e1, e2]
  simp [List.append_assoc, List.cons_append]

theorem applyPlain_shape (b : List Char) :
    applyFence Fence.plain b = (fence3 ++ ('\n' :: (b ++ ['\n']))) ++ fence3 := by
  show "```\n".data ++ (b ++ "\n```".data) = _
  have e1 : "```\n".data = fence3 ++ ['\n'] := by decide
  have e2 : "\n```".data = '\n' :: fence3 := by decide
  rw [e1, e2]
  simp [List.append_assoc, List.cons_append]

theorem cleanResponse_fenced {b : List Char} (hb : ¬ (fence3 <:+: b))
    (hm1 : ∃ m, b = '\x7b' :: m) (hm2 : ∃ m', b = m' ++ ['\x7d']) :
    ∀ w, cleanResponse (applyFence w b) = b := by
  obtain ⟨m, h1⟩ := hm1
  obtain ⟨m', h2⟩ := hm2
  intro w
  cases w with
  | bare =>
    show pyStrip (pyReplace fence3 (pyReplace fence7 b)) = b
    rw [replF7NoOcc hb, replNoOcc f3ne hb]
    exact pyStrip_of_ends h1 h2
  | jsonF =>
    show pyStrip (pyReplace fence3 (pyReplace fence7 (applyFence Fence.jsonF b))) = b
    rw [applyJsonF_shape, replHeadMatch f7ne,
      replSkipAppend f7ne (spanFree _ _ f3pre7 (wrapNoTriple hb) (wrapLast b) hTake7),
      replF7f3, replF3Wrap hb]
    exact pyStrip_wrap h1 h2
  | plain =>
    show pyStrip (pyReplace fence3 (pyReplace fence7 (applyFence Fence.plain b))) = b
    have H7 : ∀ t, t <:+ (fence3 ++ ('\n' :: (b ++ ['\n']))) → t ≠ [] →
        ¬ fence7 <+: (t ++ fence3) := by
      intro t ht htne hp
      rcases sufSplit ht with htA | ⟨x', hx's, hx'ne, rfl⟩
      · exact spanFree _ _ f3pre7 (wrapNoTriple hb) (wrapLast b) hTake7 t htA htne hp
      · rcases sufOfFence3 hx's hx'ne with rfl | rfl | rfl
        · obtain ⟨u, hu⟩ := hp
          simp [fence7, fence3, List.cons_append, List.append_assoc] at hu
        · obtain ⟨u, hu⟩ := hp
          simp [fence7, fence3, List.cons_append, List.append_assoc] at hu
        · obtain ⟨u, hu⟩ := hp
          simp [fence7, fence3, List.cons_append, List.append_assoc] at hu
    rw [applyPlain_shape, replSkipAppend f7ne H7, replF7f3]
    have hshape : (fence3 ++ ('\n' :: (b ++ ['\n']))) ++ fence3 =
        fence3 ++ (('\n' :: (b ++ ['\n'])) ++ fence3) := by
      simp [List.append_assoc]
    rw [hshape, replHeadMatch f3ne, replF3Wrap hb]
    exact pyStrip_wrap h1 h2

example : parseStrAux "ab\"rest".data = some ("ab".data, "rest".data) := rfl

example : json_loads "\x7b\"a\":[1,true,null,\"x\"],\"b\":-52\x7d".data =
    some (Json.obj [("a".data, Json.arr [Json.num 1, Json.bool true, Json.null,
      Json.str "x".data]), ("b".data, Json.num (-52))]) := rfl

example : json_loads "\x7b\"a\":1,\x7d".data = none := rfl

example : json_loads "[1,]".data = none := rfl

example : json_loads "nullx".data = none := rfl

example : json_loads "  0  ".data = some (Json.num 0) := rfl

example : json_loads "01".data = none := rfl

example : json_loads "not json".data = none := rfl

theorem digitChar10_props : ∀ k, k < 10 →
    isDig (digitChar10 k) = true ∧ isWsPy (digitChar10 k) = false ∧
    digitChar10 k ≠ '\x7b' ∧ digitChar10 k ≠ '[' ∧ digitChar10 k ≠ '"' ∧
    digitChar10 k ≠ '-' ∧ digitChar10 k ≠ ']' ∧ digitChar10 k ≠ '\x7d' ∧
    digitChar10 k ≠ ',' ∧ digitChar10 k ≠ ':' := by
  intro k hk
  interval_cases k <;> exact ⟨by decide, by decide, by decide, by decide, by decide,
    by decide, by decide, by decide, by decide, by decide⟩

theorem digitChar10_toNat : ∀ k, k < 10 → (digitChar10 k).toNat - 48 = k := by
  intro k hk
  interval_cases k <;> decide

theorem digitChar10_zero_iff : ∀ k, k < 10 → (digitChar10 k = '0' ↔ k = 0) := by
  intro k hk
  interval_cases k <;> simp [digitChar10]

theorem digitsVal_concat (l : List Char) (c : Char) :
    digitsVal (l ++ [c]) = 10 * digitsVal l + (c.toNat - 48) := by
  unfold digitsVal
  rw [List.foldl_append]
  rfl

theorem natToCharsGo_spec : ∀ f n, n ≤ f →
    (∀ c ∈ natToCharsGo f n, isDig c = true) ∧
    digitsVal (natToCharsGo f n) = n ∧
    (∃ k t, natToCharsGo f n = digitChar10 k :: t ∧ k < 10 ∧ (0 < n → k ≠ 0)) := by
  intro f
  induction f with
  | zero =>
    intro n hn
    have h0 : n = 0 := Nat.le_zero.mp hn
    subst h0
    refine ⟨?_, by decide, 0, [], rfl, by decide, by omega⟩
    intro c hc
    simp [natToCharsGo] at hc
    rw [hc]
    decide
  | succ f ih =>
    intro n hn
    by_cases hlt : n < 10
    · have hgo : natToCharsGo (f + 1) n = [digitChar10 n] := by
        simp [natToCharsGo, hlt]
      rw [hgo]
      obtain ⟨hd, _, _⟩ := digitChar10_props n hlt
      refine ⟨?_, ?_, n, [], rfl, hlt, fun h0 => by omega⟩
      · intro c hc
        simp at hc
        rw [hc]
        exact hd
      · show digitsVal ([] ++ [digitChar10 n]) = n
        rw [digitsVal_concat]
        show 10 * digitsVal [] + _ = n
        rw [digitChar10_toNat n hlt]
        simp [digitsVal]
    · have hge : 10 ≤ n := Nat.le_of_not_lt hlt
      have hdiv : n / 10 ≤ f := by
        have := Nat.div_lt_self (by omega : 0 < n) (by omega : 1 < 10)
        omega
      obtain ⟨ihm, ihv, k, t, ihh, hk, hknz⟩ := ih (n / 10) hdiv
      have hgo : natToCharsGo (f + 1) n =
          natToCharsGo f (n / 10) ++ [digitChar10 (n % 10)] := by
        simp [natToCharsGo, hlt]
      rw [hgo]
      have hm10 : n % 10 < 10 := Nat.mod_lt _ (by omega)
      refine ⟨?_, ?_, k, t ++ [digitChar10 (n % 10)], by rw [ihh]; simp, hk, ?_⟩
      · intro c hc
        rcases List.mem_append.mp hc with h | h
        · exact ihm c h
        · simp at h
          rw [h]
          exact (digitChar10_props _ hm10).1
      · rw [digitsVal_concat, ihv, digitChar10_toNat _ hm10]
        omega
      · intro _
        exact hknz (by omega)

theorem natToChars_spec (n : Nat) :
    (∀ c ∈ natToChars n, isDig c = true) ∧
    digitsVal (natToChars n) = n ∧
    (∃ k t, natToChars n = digitChar10 k :: t ∧ k < 10 ∧ (0 < n → k ≠ 0)) :=
  natToCharsGo_spec n n (Nat.le_refl n)

theorem takeWhile_all_append {p : Char → Bool} : ∀ (l rest : List Char),
    (∀ c ∈ l, p c = true) → (∀ c, rest.head? = some c → p c = false) →
    (l ++ rest).takeWhile p = l ∧ (l ++ rest).dropWhile p = rest := by
  intro l
  induction l with
  | nil =>
    intro rest _ hrest
    cases rest with
    | nil => exact ⟨rfl, rfl⟩
    | cons c r =>
      have hc := hrest c rfl
      constructor
      · simp [List.takeWhile_cons, hc]
      · simp [List.dropWhile_cons, hc]
  | cons a l ih =>
    intro rest hl hrest
    have ha : p a = true := hl a (by simp)
    obtain ⟨h1, h2⟩ := ih rest (fun c hc => hl c (by simp [hc])) hrest
    constructor
    · simp [List.takeWhile_cons, ha, h1]
    · simp [List.dropWhile_cons, ha, h2]

/-- Digit-run parsing inverts the decimal renderer. -/
theorem parseNum_natToChars (a : Nat) (rest : List Char)
    (hrest : ∀ c, rest.head? = some c → isDig c = false) :
    parseNum (natToChars a ++ rest) = some (a, rest) := by
  obtain ⟨hdigs, hval, k, t, hshape, hk, hknz⟩ := natToChars_spec a
  obtain ⟨htake, hdrop⟩ := takeWhile_all_append (natToChars a) rest hdigs hrest
  unfold parseNum
  rw [htake, hdrop, hval]
  have hne : (natToChars a).isEmpty = false := by
    rw [hshape]
    rfl
  rw [hne]
  have hbad : badLead (natToChars a) = false := by
    by_cases ha : a = 0
    · subst ha
      decide
    · rw [hshape]
      have hkz : digitChar10 k ≠ '0' := by
        intro he
        exact hknz (by omega) ((digitChar10_zero_iff k hk).mp he)
      cases t with
      | nil => rfl
      | cons d t' =>
        show decide (digitChar10 k = '0') = false
        simp [hkz]
  rw [hbad]
  rfl

example : renderJ Json.null = ['n', 'u', 'l', 'l'] := by simp [renderJ]

theorem strOkB_cons {c : Char} {t : List Char} (h : strOkB (c :: t) = true) :
    32 ≤ c.toNat ∧ strOkB t = true := by
  simp only [strOkB, List.all_cons, Bool.and_eq_true, decide_eq_true_eq] at h
  exact ⟨h.1, h.2⟩

theorem parseStrAux_quote (r : List Char) : parseStrAux ('"' :: r) = some ([], r) := by
  unfold parseStrAux
  rw [if_pos rfl]

theorem parseStrAux_esc_step {e d : Char} (he : unescapeC e = some d)
    {r2 s' rest' : List Char} (hrec : parseStrAux r2 = some (s', rest')) :
    parseStrAux ('\\' :: e :: r2) = some (d :: s', rest') := by
  unfold parseStrAux
  rw [if_neg (by decide), if_pos rfl]
  show (match unescapeC e with
    | none => none
    | some d =>
      match parseStrAux r2 with
      | none => none
      | some (s, r3) => some (d :: s, r3)) = some (d :: s', rest')
  rw [he, hrec]

theorem parseStrAux_chr_step {c : Char} (h1 : ¬ c = '"') (h2 : ¬ c = '\\')
    (h3 : ¬ c.toNat < 32) {r s' rest' : List Char}
    (hrec : parseStrAux r = some (s', rest')) :
    parseStrAux (c :: r) = some (c :: s', rest') := by
  unfold parseStrAux
  rw [if_neg h1, if_neg h2, if_neg h3, hrec]

/-- String-body parsing inverts the escaper. -/
theorem parseStrAux_escape : ∀ (s rest : List Char), strOkB s = true →
    parseStrAux (escapeChars s ++ ('"' :: rest)) = some (s, rest) := by
  intro s
  induction s with
  | nil =>
    intro rest _
    show parseStrAux (escapeChars [] ++ ('"' :: rest)) = some ([], rest)
    rw [show escapeChars [] = [] from rfl, List.nil_append]
    exact parseStrAux_quote rest
  | cons c t ih =>
    intro rest hok
    obtain ⟨hc32, hok'⟩ := strOkB_cons hok
    by_cases hq : c = '"'
    · subst hq
      have he : escapeChars ('"' :: t) = '\\' :: '"' :: escapeChars t := by
        simp [escapeChars]
      rw [he]
      simp only [List.cons_append]
      exact parseStrAux_esc_step (by decide) (ih rest hok')
    · by_cases hbs : c = '\\'
      · subst hbs
        have he : escapeChars ('\\' :: t) = '\\' :: '\\' :: escapeChars t := by
          simp [escapeChars]
        rw [he]
        simp only [List.cons_append]
        exact parseStrAux_esc_step (by decide) (ih rest hok')
      · have he : escapeChars (c :: t) = c :: escapeChars t := by
          simp [escapeChars, hq, hbs]
        rw [he]
        simp only [List.cons_append]
        exact parseStrAux_chr_step hq hbs (by omega) (ih rest hok')

/-- Every rendering starts with a character that is not whitespace and not
one of the structural closers, so the sub-parsers dispatch correctly. -/
theorem renderJ_shape (j : Json) : ∃ c t, renderJ j = c :: t ∧ isWsPy c = false ∧
    c ≠ ']' ∧ c ≠ '\x7d' ∧ c ≠ ',' := by
  cases j with
  | null => exact ⟨'n', ['u', 'l', 'l'], by simp [renderJ], by decide, by decide,
      by decide, by decide⟩
  | bool b =>
    cases b with
    | true => exact ⟨'t', ['r', 'u', 'e'], by simp [renderJ], by decide, by decide,
        by decide, by decide⟩
    | false => exact ⟨'f', ['a', 'l', 's', 'e'], by simp [renderJ], by decide, by decide,
        by decide, by decide⟩
  | num n =>
    by_cases hn : n < 0
    · refine ⟨'-', natToChars n.natAbs, ?_, by decide, by decide, by decide, by decide⟩
      simp [renderJ, intToChars, hn]
    · obtain ⟨_, _, k, t, hshape, hk, _⟩ := natToChars_spec n.natAbs
      obtain ⟨_, hw, _, _, _, _, h5, h6, h7, _⟩ := digitChar10_props k hk
      refine ⟨digitChar10 k, t, ?_, hw, h5, h6, h7⟩
      simp [renderJ, intToChars, hn, hshape]
  | str s => exact ⟨'"', escapeChars s ++ ['"'], by simp [renderJ], by decide, by decide,
      by decide, by decide⟩
  | arr xs => exact ⟨'[', renderElems xs ++ [']'], by simp [renderJ], by decide, by decide,
      by decide, by decide⟩
  | obj kvs => exact ⟨'\x7b', renderMembers kvs ++ ['\x7d'], by simp [renderJ], by decide,
      by decide, by decide, by decide⟩

theorem renderElems_cons_shape (y : Json) (t : List Json) :
    ∃ q, renderElems (y :: t) = renderJ y ++ q := by
  cases t with
  | nil => exact ⟨[], by simp [renderElems]⟩
  | cons m t' => exact ⟨',' :: renderElems (m :: t'), by simp [renderElems]⟩

theorem renderMembers_cons_shape (k : List Char) (v : Json)
    (t : List (List Char × Json)) :
    ∃ q, renderMembers ((k, v) :: t) = '"' :: q := by
  cases t with
  | nil => exact ⟨escapeChars k ++ ('"' :: ':' :: renderJ v), by simp [renderMembers]⟩
  | cons m t' =>
    exact ⟨(escapeChars k ++ ('"' :: ':' :: renderJ v)) ++ (',' :: renderMembers (m :: t')),
      by simp [renderMembers]⟩

theorem restOk_nil : restOk [] := by
  intro c h
  simp at h

theorem restOk_cons {c : Char} (h : isDig c = false) (r : List Char) :
    restOk (c :: r) := by
  intro c' h'
  simp at h'
  exact h' ▸ h

theorem isDig_notStruct {c : Char} (h : isDig c = true) :
    ¬ c = '\x7b' ∧ ¬ c = '[' ∧ ¬ c = '"' ∧ ¬ c = '-' := by
  refine ⟨?_, ?_, ?_, ?_⟩ <;> intro he <;> subst he <;> exact absurd h (by decide)

theorem pv_obj_step (f : Nat) {r : List Char} {kvs : List (List Char × Json)}
    {rest : List Char} (hp : parsePairs f r = some (kvs, rest)) :
    parseVal (f + 1) ('\x7b' :: r) = some (Json.obj kvs, rest) := by
  simp only [parseVal]
  rw [hp]
  simp [isDig, startsWithL]

theorem pv_arr_step (f : Nat) {r : List Char} {xs : List Json}
    {rest : List Char} (hp : parseElems f r = some (xs, rest)) :
    parseVal (f + 1) ('[' :: r) = some (Json.arr xs, rest) := by
  simp only [parseVal]
  rw [hp]
  simp [isDig, startsWithL]

theorem pv_str_step (f : Nat) {r k rest : List Char}
    (hs : parseStrAux r = some (k, rest)) :
    parseVal (f + 1) ('"' :: r) = some (Json.str k, rest) := by
  simp only [parseVal]
  rw [hs]
  simp [isDig, startsWithL]

theorem pv_num_neg_step (f : Nat) {r : List Char} {a : Nat} {rest : List Char}
    (hn : parseNum r = some (a, rest)) :
    parseVal (f + 1) ('-' :: r) = some (Json.num (-(a : Int)), rest) := by
  simp only [parseVal]
  rw [hn]
  simp [isDig, startsWithL]

theorem pv_num_pos_step (f : Nat) {c : Char} (hd : isDig c = true) {r : List Char}
    {a : Nat} {rest : List Char} (hn : parseNum (c :: r) = some (a, rest)) :
    parseVal (f + 1) (c :: r) = some (Json.num (a : Int), rest) := by
  obtain ⟨h1, h2, h3, h4⟩ := isDig_notStruct hd
  simp only [parseVal]
  rw [if_neg h1, if_neg h2, if_neg h3, if_neg h4, if_pos hd, hn]

theorem pv_null_step (f : Nat) (rest : List Char) :
    parseVal (f + 1) ('n' :: 'u' :: 'l' :: 'l' :: rest) = some (Json.null, rest) := by
  simp [parseVal, startsWithL, isDig]

theorem pv_true_step (f : Nat) (rest : List Char) :
    parseVal (f + 1) ('t' :: 'r' :: 'u' :: 'e' :: rest) = some (Json.bool true, rest) := by
  simp [parseVal, startsWithL, isDig]

theorem pv_false_step (f : Nat) (rest : List Char) :
    parseVal (f + 1) ('f' :: 'a' :: 'l' :: 's' :: 'e' :: rest) =
      some (Json.bool false, rest) := by
  simp [parseVal, startsWithL, isDig]

theorem pe_close_step (f : Nat) (r : List Char) :
    parseElems (f + 1) (']' :: r) = some ([], r) := by
  simp [parseElems]

theorem pe_cons_last (f : Nat) {c : Char} (h : ¬ c = ']') {r : List Char} {x : Json}
    {rest : List Char} (hv : parseVal f (c :: r) = some (x, ']' :: rest)) :
    parseElems (f + 1) (c :: r) = some ([x], rest) := by
  simp only [parseElems]
  rw [if_neg h, hv]
  rfl

theorem pe_cons_more (f : Nat) {c : Char} (h : ¬ c = ']') {r : List Char} {x : Json}
    {e : Char} (he : ¬ e = ']') {r3 : List Char} {xs : List Json} {rest : List Char}
    (hv : parseVal f (c :: r) = some (x, ',' :: e :: r3))
    (hrec : parseElems f (e :: r3) = some (xs, rest)) :
    parseElems (f + 1) (c :: r) = some (x :: xs, rest) := by
  simp only [parseElems]
  rw [if_neg h, hv]
  show (if e = ']' then none
        else match parseElems f (e :: r3) with
          | none => none
          | some (xs, r4) => some (x :: xs, r4)) = some (x :: xs, rest)
  rw [if_neg he, hrec]

theorem pp_close_step (f : Nat) (r : List Char) :
    parsePairs (f + 1) ('\x7d' :: r) = some ([], r) := by
  simp [parsePairs]

theorem pp_cons_last (f : Nat) {r k r3 : List Char} {v : Json} {rest : List Char}
    (hs : parseStrAux r = some (k, ':' :: r3))
    (hv : parseVal f r3 = some (v, '\x7d' :: rest)) :
    parsePairs (f + 1) ('"' :: r) = some ([(k, v)], rest) := by
  simp only [parsePairs]
  rw [hs]
  show (if (':' : Char) = ':' then
          match parseVal f r3 with
          | none => none
          | some (v, r4) =>
            match r4 with
            | [] => none
            | e :: r5 =>
              if e = ',' then
                match r5 with
                | [] => none
                | x :: r6 =>
                  if x = '"' then
                    match parsePairs f (x :: r6) with
                    | none => none
                    | some (ps, r7) => some ((k, v) :: ps, r7)
                  else none
              else if e = '\x7d' then some ([(k, v)], r5)
              else none
        else none) = some ([(k, v)], rest)
  rw [if_pos rfl, hv]
  rfl

theorem pp_cons_more (f : Nat) {r k r3 : List Char} {v : Json} {q rest : List Char}
    {ps : List (List Char × Json)}
    (hs : parseStrAux r = some (k, ':' :: r3))
    (hv : parseVal f r3 = some (v, ',' :: '"' :: q))
    (hrec : parsePairs f ('"' :: q) = some (ps, rest)) :
    parsePairs (f + 1) ('"' :: r) = some ((k, v) :: ps, rest) := by
  simp only [parsePairs]
  rw [hs]
  show (if (':' : Char) = ':' then
          match parseVal f r3 with
          | none => none
          | some (v, r4) =>
            match r4 with
            | [] => none
            | e :: r5 =>
              if e = ',' then
                match r5 with
                | [] => none
                | x :: r6 =>
                  if x = '"' then
                    match parsePairs f (x :: r6) with
                    | none => none
                    | some (ps, r7) => some ((k, v) :: ps, r7)
                  else none
              else if e = '\x7d' then some ([(k, v)], r5)
              else none
        else none) = some ((k, v) :: ps, rest)
  rw [if_pos rfl, hv]
  show (if (',' : Char) = ',' then
          match ('"' :: q : List Char) with
          | [] => none
          | x :: r6 =>
            if x = '"' then
              match parsePairs f (x :: r6) with
              | none => none
              | some (ps, r7) => some ((k, v) :: ps, r7)
            else none
        else if (',' : Char) = '\x7d' then some ([(k, v)], '"' :: q)
        else none) = some ((k, v) :: ps, rest)
  rw [if_pos rfl]
  show (if ('"' : Char) = '"' then
          match parsePairs f ('"' :: q) with
          | none => none
          | some (ps, r7) => some ((k, v) :: ps, r7)
        else none) = some ((k, v) :: ps, rest)
  rw [if_pos rfl, hrec]

theorem parseRound : ∀ f : Nat,
    (∀ j rest, validJ j = true → restOk rest → (renderJ j).length < f →
      parseVal f (renderJ j ++ rest) = some (j, rest)) ∧
    (∀ xs rest, validElems xs = true → (renderElems xs).length + 2 ≤ f →
      parseElems f (renderElems xs ++ (']' :: rest)) = some (xs, rest)) ∧
    (∀ kvs rest, validMembers kvs = true → (renderMembers kvs).length + 2 ≤ f →
      parsePairs f (renderMembers kvs ++ ('\x7d' :: rest)) = some (kvs, rest)) := by
  intro f
  induction f using Nat.strong_induction_on with
  | _ f ih =>
  refine ⟨?_, ?_, ?_⟩
  · intro j rest hval hrest hlen
    cases f with
    | zero => exact absurd hlen (Nat.not_lt_zero _)
    | succ f =>
    have hf : f < f + 1 := Nat.lt_succ_self f
    cases j with
    | null =>
      rw [show renderJ Json.null = ['n', 'u', 'l', 'l'] from by simp [renderJ]]
      show parseVal (f + 1) ('n' :: 'u' :: 'l' :: 'l' :: rest) = some (Json.null, rest)
      exact pv_null_step f rest
    | bool b =>
      cases b with
      | true =>
        rw [show renderJ (Json.bool true) = ['t', 'r', 'u', 'e'] from by simp [renderJ]]
        show parseVal (f + 1) ('t' :: 'r' :: 'u' :: 'e' :: rest) = some (Json.bool true, rest)
        exact pv_true_step f rest
      | false =>
        rw [show renderJ (Json.bool false) = ['f', 'a', 'l', 's', 'e'] from by simp [renderJ]]
        show parseVal (f + 1) ('f' :: 'a' :: 'l' :: 's' :: 'e' :: rest) =
          some (Json.bool false, rest)
        exact pv_false_step f rest
    | num n =>
      have hnum := parseNum_natToChars n.natAbs rest hrest
      by_cases hn : n < 0
      · rw [show renderJ (Json.num n) = '-' :: natToChars n.natAbs from by
          simp [renderJ, intToChars, hn]]
        show parseVal (f + 1) ('-' :: (natToChars n.natAbs ++ rest)) = some (Json.num n, rest)
        rw [pv_num_neg_step f hnum]
        have he : -((n.natAbs : Int)) = n := by omega
        rw [he]
      · rw [show renderJ (Json.num n) = natToChars n.natAbs from by
          simp [renderJ, intToChars, hn]]
        obtain ⟨_, _, k, tk, hshape, hk, _⟩ := natToChars_spec n.natAbs
        rw [hshape]
        show parseVal (f + 1) (digitChar10 k :: (tk ++ rest)) = some (Json.num n, rest)
        have hnum' : parseNum (digitChar10 k :: (tk ++ rest)) = some (n.natAbs, rest) := by
          have : digitChar10 k :: (tk ++ rest) = natToChars n.natAbs ++ rest := by
            rw [hshape]
            rfl
          rw [this]
          exact hnum
        rw [pv_num_pos_step f (digitChar10_props k hk).1 hnum']
        have he : ((n.natAbs : Int)) = n := by omega
        rw [he]
    | str s =>
      rw [show renderJ (Json.str s) = '"' :: (escapeChars s ++ ['"']) from by simp [renderJ]]
      show parseVal (f + 1) ('"' :: ((escapeChars s ++ ['"']) ++ rest)) = some (Json.str s, rest)
      rw [show (escapeChars s ++ ['"']) ++ rest = escapeChars s ++ ('"' :: rest) from by
        simp [List.append_assoc]]
      have hok : strOkB s = true := by simpa [validJ] using hval
      exact pv_str_step f (parseStrAux_escape s rest hok)
    | arr xs =>
      have hr : renderJ (Json.arr xs) = '[' :: (renderElems xs ++ [']']) := by simp [renderJ]
      have hlen' : (renderElems xs).length + 2 ≤ f := by
        rw [hr] at hlen
        simp at hlen
        omega
      rw [hr]
      show parseVal (f + 1) ('[' :: ((renderElems xs ++ [']']) ++ rest)) =
        some (Json.arr xs, rest)
      rw [show (renderElems xs ++ [']']) ++ rest = renderElems xs ++ (']' :: rest) from by
        simp [List.append_assoc]]
      have hvx : validElems xs = true := by simpa [validJ] using hval
      exact pv_arr_step f ((ih f hf).2.1 xs rest hvx hlen')
    | obj kvs =>
      have hr : renderJ (Json.obj kvs) = '\x7b' :: (renderMembers kvs ++ ['\x7d']) := by
        simp [renderJ]
      have hlen' : (renderMembers kvs).length + 2 ≤ f := by
        rw [hr] at hlen
        simp at hlen
        omega
      rw [hr]
      show parseVal (f + 1) ('\x7b' :: ((renderMembers kvs ++ ['\x7d']) ++ rest)) =
        some (Json.obj kvs, rest)
      rw [show (renderMembers kvs ++ ['\x7d']) ++ rest =
          renderMembers kvs ++ ('\x7d' :: rest) from by simp [List.append_assoc]]
      have hvx : validMembers kvs = true := by simpa [validJ] using hval
      exact pv_obj_step f ((ih f hf).2.2 kvs rest hvx hlen')
  · intro xs rest hval hf2
    cases f with
    | zero => omega
    | succ f =>
    have hf : f < f + 1 := Nat.lt_succ_self f
    cases xs with
    | nil =>
      rw [show renderElems [] = [] from by simp [renderElems]]
      show parseElems (f + 1) (']' :: rest) = some ([], rest)
      exact pe_close_step f rest
    | cons x xs' =>
      obtain ⟨c, tx, hcx, _, hcne, _, _⟩ := renderJ_shape x
      have hlenx : (renderJ x).length = tx.length + 1 := by rw [hcx]; rfl
      cases xs' with
      | nil =>
        have hvx : validJ x = true := by
          simp only [validElems, Bool.and_eq_true] at hval
          exact hval.1
        have hr : renderElems [x] = renderJ x := by simp [renderElems]
        have hlf : (renderJ x).length < f := by
          rw [hr] at hf2
          omega
        rw [hr, hcx]
        show parseElems (f + 1) (c :: (tx ++ (']' :: rest))) = some ([x], rest)
        have hpv : parseVal f (c :: (tx ++ (']' :: rest))) = some (x, ']' :: rest) := by
          have harg : c :: (tx ++ (']' :: rest)) = renderJ x ++ (']' :: rest) := by
            rw [hcx]
            rfl
          rw [harg]
          exact (ih f hf).1 x (']' :: rest) hvx (restOk_cons (by decide) rest) hlf
        exact pe_cons_last f hcne hpv
      | cons y t =>
        have hvs : validJ x = true ∧ validElems (y :: t) = true := by
          simp only [validElems, Bool.and_eq_true] at hval
          exact ⟨hval.1, by
            simp only [validElems, Bool.and_eq_true]
            exact hval.2⟩
        have hr : renderElems (x :: y :: t) = renderJ x ++ (',' :: renderElems (y :: t)) := by
          simp [renderElems]
        have hlens : (renderJ x).length + 1 + (renderElems (y :: t)).length + 2 ≤ f + 1 := by
          rw [hr] at hf2
          simp at hf2
          omega
        obtain ⟨cy, ty, hcy, _, hcyne, _, _⟩ := renderJ_shape y
        obtain ⟨qy, hqy⟩ := renderElems_cons_shape y t
        have hRcons : renderElems (y :: t) ++ (']' :: rest) =
            cy :: ((ty ++ qy) ++ (']' :: rest)) := by
          rw [hqy, hcy]
          simp [List.append_assoc]
        rw [hr]
        rw [show (renderJ x ++ (',' :: renderElems (y :: t))) ++ (']' :: rest) =
            renderJ x ++ (',' :: (renderElems (y :: t) ++ (']' :: rest))) from by
          simp [List.append_assoc]]
        rw [hcx]
        show parseElems (f + 1)
          (c :: (tx ++ (',' :: (renderElems (y :: t) ++ (']' :: rest))))) =
          some (x :: y :: t, rest)
        rw [hRcons]
        have hpv : parseVal f
            (c :: (tx ++ (',' :: (cy :: ((ty ++ qy) ++ (']' :: rest)))))) =
            some (x, ',' :: (cy :: ((ty ++ qy) ++ (']' :: rest)))) := by
          have harg : c :: (tx ++ (',' :: (cy :: ((ty ++ qy) ++ (']' :: rest))))) =
              renderJ x ++ (',' :: (cy :: ((ty ++ qy) ++ (']' :: rest)))) := by
            rw [hcx]
            rfl
          rw [harg]
          exact (ih f hf).1 x _ hvs.1 (restOk_cons (by decide) _) (by omega)
        have hrec : parseElems f (cy :: ((ty ++ qy) ++ (']' :: rest))) =
            some (y :: t, rest) := by
          rw [← hRcons]
          exact (ih f hf).2.1 (y :: t) rest hvs.2 (by omega)
        exact pe_cons_more f hcne hcyne hpv hrec
  · intro kvs rest hval hf2
    cases f with
    | zero => omega
    | succ f =>
    have hf : f < f + 1 := Nat.lt_succ_self f
    cases kvs with
    | nil =>
      rw [show renderMembers [] = [] from by simp [renderMembers]]
      show parsePairs (f + 1) ('\x7d' :: rest) = some ([], rest)
      exact pp_close_step f rest
    | cons kv t =>
      obtain ⟨k, v⟩ := kv
      have hvkv : strOkB k = true ∧ validJ v = true ∧ validMembers t = true := by
        simp only [validMembers, Bool.and_eq_true] at hval
        exact ⟨hval.1.1.1, hval.1.1.2, hval.2⟩
      cases t with
      | nil =>
        have hr : renderMembers [(k, v)] =
            '"' :: (escapeChars k ++ ('"' :: ':' :: renderJ v)) := by
          simp [renderMembers]
        have hlenv : (renderJ v).length < f := by
          rw [hr] at hf2
          simp at hf2
          omega
        rw [hr]
        rw [show ('"' :: (escapeChars k ++ ('"' :: ':' :: renderJ v))) ++ ('\x7d' :: rest) =
            '"' :: (escapeChars k ++ ('"' :: (':' :: (renderJ v ++ ('\x7d' :: rest))))) from by
          simp [List.append_assoc]]
        have hs : parseStrAux (escapeChars k ++ ('"' :: (':' :: (renderJ v ++ ('\x7d' :: rest))))) =
            some (k, ':' :: (renderJ v ++ ('\x7d' :: rest))) :=
          parseStrAux_escape k _ hvkv.1
        have hv : parseVal f (renderJ v ++ ('\x7d' :: rest)) = some (v, '\x7d' :: rest) :=
          (ih f hf).1 v _ hvkv.2.1 (restOk_cons (by decide) _) hlenv
        exact pp_cons_last f hs hv
      | cons m t' =>
        have hr : renderMembers ((k, v) :: m :: t') =
            ('"' :: (escapeChars k ++ ('"' :: ':' :: renderJ v))) ++
              (',' :: renderMembers (m :: t')) := by
          simp [renderMembers]
        have hlens : (renderJ v).length + (renderMembers (m :: t')).length + 4 ≤ f + 1 := by
          rw [hr] at hf2
          simp at hf2
          omega
        obtain ⟨qm, hqm⟩ := renderMembers_cons_shape m.1 m.2 t'
        rw [show ((m.1, m.2) : List Char × Json) = m from rfl] at hqm
        have hvm : validMembers (m :: t') = true := hvkv.2.2
        rw [hr]
        rw [show (('"' :: (escapeChars k ++ ('"' :: ':' :: renderJ v))) ++
              (',' :: renderMembers (m :: t'))) ++ ('\x7d' :: rest) =
            '"' :: (escapeChars k ++ ('"' :: (':' :: (renderJ v ++
              (',' :: (renderMembers (m :: t') ++ ('\x7d' :: rest))))))) from by
          simp [List.append_assoc]]
        have hs : parseStrAux (escapeChars k ++ ('"' :: (':' :: (renderJ v ++
            (',' :: (renderMembers (m :: t') ++ ('\x7d' :: rest))))))) =
            some (k, ':' :: (renderJ v ++
              (',' :: (renderMembers (m :: t') ++ ('\x7d' :: rest))))) :=
          parseStrAux_escape k _ hvkv.1
        have hRMcons : renderMembers (m :: t') ++ ('\x7d' :: rest) =
            '"' :: (qm ++ ('\x7d' :: rest)) := by
          rw [hqm]
          rfl
        have hv : parseVal f (renderJ v ++
            (',' :: (renderMembers (m :: t') ++ ('\x7d' :: rest)))) =
            some (v, ',' :: ('"' :: (qm ++ ('\x7d' :: rest)))) := by
          rw [← hRMcons]
          exact (ih f hf).1 v _ hvkv.2.1 (restOk_cons (by decide) _) (by omega)
        have hrec : parsePairs f ('"' :: (qm ++ ('\x7d' :: rest))) =
            some (m :: t', rest) := by
          rw [← hRMcons]
          exact (ih f hf).2.2 (m :: t') rest hvm (by omega)
        exact pp_cons_more f hs hv hrec

/-- `json_loads` inverts the canonical renderer on valid values. -/
theorem json_loads_render (j : Json) (hv : validJ j = true) :
    json_loads (renderJ j) = some j := by
  obtain ⟨c, t, hc, hw, _, _, _⟩ := renderJ_shape j
  have hdw : (renderJ j).dropWhile isWsPy = renderJ j := by
    rw [hc]
    exact dropWhile_cons_false hw
  unfold json_loads
  rw [hdw]
  have hA := (parseRound (2 * (renderJ j).length + 2)).1 j [] hv restOk_nil (by omega)
  rw [List.append_nil] at hA
  rw [hA]
  rfl

theorem analyze_contract_ok_parse {t : List Char} {j : Json}
    (h : json_loads (cleanResponse t) = some j) :
    analyze_contract (Except.ok t) = (j, false) := by
  unfold analyze_contract
  show (match json_loads (cleanResponse t) with
    | some j => (j, false)
    | none => (emptyResult, true)) = (j, false)
  rw [h]

/-- Extraction round-trip for fenced well-formed objects whose text is
free of the fence substring. -/
theorem analyze_contract_roundtrip (kvs : List (List Char × Json)) (w : Fence)
    (hv : validJ (Json.obj kvs) = true)
    (hb : ¬ (fence3 <:+: renderJ (Json.obj kvs))) :
    analyze_contract (Except.ok (applyFence w (renderJ (Json.obj kvs)))) =
      (Json.obj kvs, false) := by
  have hshape : renderJ (Json.obj kvs) = '\x7b' :: (renderMembers kvs ++ ['\x7d']) := by
    simp [renderJ]
  have hclean : cleanResponse (applyFence w (renderJ (Json.obj kvs))) =
      renderJ (Json.obj kvs) := by
    refine cleanResponse_fenced hb ⟨_, hshape⟩ ⟨'\x7b' :: renderMembers kvs, ?_⟩ w
    rw [hshape]
    exact (List.cons_append _ _ _).symm
  apply analyze_contract_ok_parse
  rw [hclean]
  exact json_loads_render _ hv

/-- C1: the derived day-offset is computed by case-insensitive substring
search in fixed priority order with first match winning: "10" → 10, else
"5" → 5, else "3" → 3, else "24" → 1, else "immediately" → 0, else the
default 7.  In particular any string containing "10" gives 10,
"Immediately" in any casing gives 0, and "Without Delay" gives 7. -/
theorem claim_C1 (s : List Char) :
    (hasSub "10".data (pyLower s) = true → deriveDays (PyVal.str s) = 10) ∧
    (hasSub "10".data (pyLower s) = false → hasSub "5".data (pyLower s) = true →
      deriveDays (PyVal.str s) = 5) ∧
    (hasSub "10".data (pyLower s) = false → hasSub "5".data (pyLower s) = false →
      hasSub "3".data (pyLower s) = true → deriveDays (PyVal.str s) = 3) ∧
    (hasSub "10".data (pyLower s) = false → hasSub "5".data (pyLower s) = false →
      hasSub "3".data (pyLower s) = false → hasSub "24".data (pyLower s) = true →
      deriveDays (PyVal.str s) = 1) ∧
    (hasSub "10".data (pyLower s) = false → hasSub "5".data (pyLower s) = false →
      hasSub "3".data (pyLower s) = false → hasSub "24".data (pyLower s) = false →
      hasSub "immediately".data (pyLower s) = true → deriveDays (PyVal.str s) = 0) ∧
    (hasSub "10".data (pyLower s) = false → hasSub "5".data (pyLower s) = false →
      hasSub "3".data (pyLower s) = false → hasSub "24".data (pyLower s) = false →
      hasSub "immediately".data (pyLower s) = false → deriveDays (PyVal.str s) = 7) ∧
    (pyLower s = "immediately".data → deriveDays (PyVal.str s) = 0) ∧
    deriveDays (PyVal.str "Without Delay".data) = 7 := by
  refine ⟨?_, ?_, ?_, ?_, ?_, ?_, ?_, by decide⟩
  · intro h10
    simp [deriveDays, pyToString, h10]
  · intro h10 h5
    simp [deriveDays, pyToString, h10, h5]
  · intro h10 h5 h3
    simp [deriveDays, pyToString, h10, h5, h3]
  · intro h10 h5 h3 h24
    simp [deriveDays, pyToString, h10, h5, h3, h24]
  · intro h10 h5 h3 h24 him
    simp [deriveDays, pyToString, h10, h5, h3, h24, him]
  · intro h10 h5 h3 h24 him
    simp [deriveDays, pyToString, h10, h5, h3, h24, him]
  · intro hL
    show deriveDays (PyVal.str s) = 0
    unfold deriveDays
    rw [show pyToString (PyVal.str s) = s from rfl, hL]
    decide

theorem claim_C1_witness :
    deriveDays (PyVal.str "Respond in 5 Days".data) = 5 ∧
    deriveDays (PyVal.str "10 Working Days or 5 Days".data) = 10 ∧
    deriveDays (PyVal.str "IMMEDIATELY".data) = 0 :=
  ⟨(claim_C1 "Respond in 5 Days".data).2.1 (by decide) (by decide),
   (claim_C1 "10 Working Days or 5 Days".data).1 (by decide),
   (claim_C1 "IMMEDIATELY".data).2.2.2.2.2.2.1 (by decide)⟩

/-- C10: deadline derivation is total in the type of `time_limit`: the
value is coerced with `str()` and lowercased, so every `PyVal` derives an
offset (always one of 0, 1, 3, 5, 7, 10), and a `None` `time_limit`
derives the 7-day default rather than an error. -/
theorem claim_C10 :
    deriveDays PyVal.none = 7 ∧
    (∀ v : PyVal, deriveDays v = 0 ∨ deriveDays v = 1 ∨ deriveDays v = 3 ∨
      deriveDays v = 5 ∨ deriveDays v = 7 ∨ deriveDays v = 10) := by
  constructor
  · decide
  · intro v
    unfold deriveDays
    simp only []
    split_ifs <;> decide

/-- A sample clause used by the concrete witnesses (from the ANALYST_PROMPT
example on lines 78-84). -/
def sampleClause : ClauseV :=
  ⟨"GC 6.5.1".data, "Delays".data, "Delay by Owner".data,
    PyVal.str "10 Working Days".data⟩

/-- C2: the calendar export produces one event per clause, preserving
clause input order: event N's title combines clause N's topic and
clause id. -/
theorem claim_C2 (now : Int) (clauses : List ClauseV) :
    (create_calendar_file now clauses).length = clauses.length ∧
    ∀ (n : Nat) (c : ClauseV), clauses[n]? = some c →
      ∃ ev : Event, (create_calendar_file now clauses)[n]? = some ev ∧
        ev.name = "⚠️ NOTICE DUE: ".data ++ c.topic ++ " (".data ++ c.clause_id ++ ")".data := by
  refine ⟨by simp [create_calendar_file, calendar_serialize], ?_⟩
  intro n c hc
  refine ⟨mkEvent now c, ?_, rfl⟩
  simp [create_calendar_file, calendar_serialize, List.getElem?_map, hc]

theorem claim_C2_witness :
    ∃ ev, (create_calendar_file 0 [sampleClause])[0]? = some ev ∧
      ev.name = "⚠️ NOTICE DUE: ".data ++ sampleClause.topic ++ " (".data ++
        sampleClause.clause_id ++ ")".data :=
  (claim_C2 0 [sampleClause]).2 0 sampleClause rfl

/-- C3: every exported event starts at the generation-time timestamp plus
the derived day-offset and carries exactly one display alarm whose trigger
is -1 day, so it fires exactly one day (24 hours) before the start. -/
theorem claim_C3 (now : Int) (clauses : List ClauseV) (n : Nat) (c : ClauseV)
    (hc : clauses[n]? = some c) :
    ∃ ev, (create_calendar_file now clauses)[n]? = some ev ∧
      ev.beginT = now + (deriveDays c.time_limit : Int) ∧
      ev.alarms = [⟨-1⟩] ∧
      ∀ a ∈ ev.alarms, ev.beginT + a.trigger = ev.beginT - 1 := by
  refine ⟨mkEvent now c, ?_, rfl, rfl, ?_⟩
  · simp [create_calendar_file, calendar_serialize, List.getElem?_map, hc]
  · intro a ha
    simp only [mkEvent, List.mem_singleton] at ha
    rw [ha]
    show (mkEvent now c).beginT + (-1) = (mkEvent now c).beginT - 1
    omega

theorem claim_C3_witness :
    ∃ ev, (create_calendar_file 5 [sampleClause24])[0]? = some ev ∧
      ev.beginT = 5 + (deriveDays sampleClause24.time_limit : Int) ∧
      ev.alarms = [⟨-1⟩] ∧
      ∀ a ∈ ev.alarms, ev.beginT + a.trigger = ev.beginT - 1 :=
  claim_C3 5 [sampleClause24] 0 sampleClause24 rfl

/-- C6: end-to-end for a clause whose `time_limit` is "10 Working Days":
the deriver returns 10 and the exporter produces one event due 10 days
from generation time with the alarm firing at 9 days (1 day before). -/
theorem claim_C6 (now : Int) (c : ClauseV)
    (h : c.time_limit = PyVal.str "10 Working Days".data) :
    deriveDays c.time_limit = 10 ∧
    ∃ ev, create_calendar_file now [c] = [ev] ∧
      ev.beginT = now + 10 ∧ ev.alarms = [⟨-1⟩] ∧ ev.beginT + (-1) = now + 9 := by
  have hd : deriveDays c.time_limit = 10 := by
    rw [h]
    decide
  refine ⟨hd, mkEvent now c, rfl, ?_, rfl, ?_⟩
  · show now + (deriveDays c.time_limit : Int) = now + 10
    rw [hd]
    rfl
  · show now + (deriveDays c.time_limit : Int) + (-1) = now + 9
    rw [hd]
    omega

theorem claim_C6_witness :
    deriveDays sampleClause.time_limit = 10 ∧
    ∃ ev, create_calendar_file 0 [sampleClause] = [ev] ∧
      ev.beginT = 0 + 10 ∧ ev.alarms = [⟨-1⟩] ∧ ev.beginT + (-1) = 0 + 9 :=
  claim_C6 0 sampleClause rfl

theorem subAppendLeft {x r : List Char} (l : List Char) (h : x <:+: r) : x <:+: l ++ r := by
  obtain ⟨s, t, hst⟩ := h
  exact ⟨l ++ s, t, by rw [← hst]; simp [List.append_assoc]⟩

/-- C7: the drafting stage makes exactly one model call, with the fixed
template's fields substituted verbatim (each field occurs in the prompt),
returns the raw response unmodified, and a model-call failure propagates
to the caller unchanged — no retry, no catching, no fallback. -/
theorem claim_C7 (gm : List Char → Except (List Char) (List Char))
    (clause : ClauseV) (inputs : NoticeInputs) (meta : RecipientInfo) :
    generate_notice_draft gm clause inputs meta = gm (drafter_prompt clause inputs meta) ∧
    (∀ e, gm (drafter_prompt clause inputs meta) = Except.error e →
      generate_notice_draft gm clause inputs meta = Except.error e) ∧
    (∀ t, gm (drafter_prompt clause inputs meta) = Except.ok t →
      generate_notice_draft gm clause inputs meta = Except.ok t) ∧
    inputs.date <:+: drafter_prompt clause inputs meta ∧
    meta.owner <:+: drafter_prompt clause inputs meta ∧
    meta.recipient <:+: drafter_prompt clause inputs meta ∧
    meta.project <:+: drafter_prompt clause inputs meta ∧
    meta.contract_num <:+: drafter_prompt clause inputs meta ∧
    clause.clause_id <:+: drafter_prompt clause inputs meta ∧
    clause.topic <:+: drafter_prompt clause inputs meta ∧
    inputs.cause <:+: drafter_prompt clause inputs meta ∧
    inputs.effect <:+: drafter_prompt clause inputs meta := by
  refine ⟨rfl, fun e he => he, fun t ht => ht, ?_, ?_, ?_, ?_, ?_, ?_, ?_, ?_, ?_⟩ <;>
    unfold drafter_prompt <;>
    repeat
      first
      | exact (List.prefix_append _ _).isInfix
      | apply subAppendLeft

theorem claim_C7_witness :
    generate_notice_draft (fun _ => Except.error "model down".data)
      (ClauseV.mk "GC 6.5.1".data "Delays".data "Delay by Owner".data PyVal.none)
      (NoticeInputs.mk "2024-01-02".data "rain".data "stop".data)
      (RecipientInfo.mk "Owner Co".data "PM".data "Bridge".data "C-1".data) =
      Except.error "model down".data :=
  (claim_C7 (fun _ => Except.error "model down".data) _ _ _).2.1 _ rfl

theorem extractLoop_take : ∀ (ps : List (List Char)) (i : Nat), i ≤ 51 →
    extractLoop i ps = ((ps.take (51 - i)).map (fun p => p ++ ['\n'])).flatten := by
  intro ps
  induction ps with
  | nil =>
    intro i _
    simp [extractLoop]
  | cons p rest ih =>
    intro i hi
    by_cases h : i > 50
    · have h0 : 51 - i = 0 := by omega
      simp [extractLoop, h, h0]
    · have h1 : i + 1 ≤ 51 := by omega
      have h2 : 51 - i = (51 - (i + 1)) + 1 := by omega
      simp only [extractLoop, h, if_false]
      rw [ih (i + 1) h1, h2]
      simp

/-- C8: text extraction reads only the first 51 pages: with more than 51
pages the result is the concatenation of pages 0-50 each followed by a
newline, and with at most 51 pages it is the concatenation of all pages. -/
theorem claim_C8 (pages : List (List Char)) :
    (51 < pages.length →
      extract_text_from_pdf pages = ((pages.take 51).map (fun p => p ++ ['\n'])).flatten) ∧
    (pages.length ≤ 51 →
      extract_text_from_pdf pages = (pages.map (fun p => p ++ ['\n'])).flatten) := by
  have h := extractLoop_take pages 0 (by omega)
  constructor
  · intro _
    simpa [extract_text_from_pdf] using h
  · intro hle
    have h51 : pages.take 51 = pages := List.take_of_length_le hle
    rw [h51] at h
    simpa [extract_text_from_pdf] using h

theorem claim_C8_witness :
    extract_text_from_pdf ["page one".data, "page two".data] =
      ((["page one".data, "page two".data]).map (fun p => p ++ ['\n'])).flatten :=
  (claim_C8 ["page one".data, "page two".data]).2 (by decide)

theorem resp9_renders : resp9 = renderJ j0 := rfl

/-- C9: fence stripping is global, not boundary-only: the replacements on
line 136 delete "```" inside JSON string values, so the well-formed object
`j0` (whose "x" value contains "```") comes back as a different structure:
the pipeline returns `jBad`, whose "x" value lost the backticks. -/
theorem claim_C9 :
    resp9 = renderJ j0 ∧
    cleanResponse resp9 = "\x7b\"x\":\"ab\"\x7d".data ∧
    analyze_contract (Except.ok resp9) = (jBad, false) ∧
    jBad ≠ j0 := by
  refine ⟨rfl, rfl, rfl, ?_⟩
  intro h
  simp [jBad, j0] at h

/-- C4 counterexample: the round-trip claim, as stated, fails on the
response `resp9`: its body is the well-formed JSON object `j0` (unwrapped),
yet extraction does not return `j0`. -/
theorem claim_C4_counterexample :
    resp9 = renderJ j0 ∧ validJ j0 = true ∧
    analyze_contract (Except.ok (applyFence Fence.bare resp9)) ≠ (j0, false) := by
  refine ⟨rfl, rfl, ?_⟩
  intro h
  have hBad : analyze_contract (Except.ok (applyFence Fence.bare resp9)) = (jBad, false) := rfl
  rw [hBad] at h
  have : jBad = j0 := congrArg Prod.fst h
  simp [jBad, j0] at this

/-- C4 (amended): for every well-formed JSON object (in the model's scope)
whose text contains no occurrence of the fence substring "```", optionally
wrapped in markdown code fences, the extraction stage strips the fence
markers and returns exactly the structure the embedded JSON denotes. -/
theorem claim_C4 (kvs : List (List Char × Json)) (w : Fence)
    (hv : validJ (Json.obj kvs) = true)
    (hb : ¬ (fence3 <:+: renderJ (Json.obj kvs))) :
    analyze_contract (Except.ok (applyFence w (renderJ (Json.obj kvs)))) =
      (Json.obj kvs, false) :=
  analyze_contract_roundtrip kvs w hv hb

theorem claim_C4_witness :
    analyze_contract (Except.ok (applyFence Fence.jsonF (renderJ (Json.obj kvs0)))) =
      (Json.obj kvs0, false) :=
  claim_C4 kvs0 Fence.jsonF (by decide) (noSub_of_false (by decide))

theorem claim_C5_witness :
    analyze_contract (Except.ok "The model returned no JSON at all.".data) =
      (emptyResult, true) :=
  claim_C5.2 "The model returned no JSON at all.".data rfl
